import Mathlib

/-!
Verification of the Quark qkernel core against its natural-language
specification.  Each section shallowly embeds one subsystem of the Rust
source (src/qkernel, src/qlib) as executable Lean definitions and proves
the spec's claims about it.

Machine integers (Rust `usize`/`u64`) are modelled as `Nat` with explicit
wrap-around `% 2^64` where the source's wrapping arithmetic
(`fetch_add`/`fetch_sub` on atomics) matters.
-/

/-- Word size modulus for 64-bit machine integers. -/
def W64 : Nat := 2 ^ 64

/-- Wrapping 64-bit addition, modelling `AtomicUsize::fetch_add` results. -/
def add64 (x y : Nat) : Nat := (x + y) % W64

/-- Wrapping 64-bit subtraction, modelling `AtomicUsize::fetch_sub` results. -/
def sub64 (x y : Nat) : Nat := (x + (W64 - y % W64)) % W64

/-- Wrapping 64-bit multiplication, modelling `usize` multiplication. -/
def mul64 (x y : Nat) : Nat := (x * y) % W64

/-- Fuel-driven base-2 ceiling logarithm (structurally recursive so that
the kernel can evaluate it on concrete inputs); with fuel `≥ n` it agrees
with `Nat.clog 2 n`. -/
def clog2Fuel : Nat → Nat → Nat
  | 0, _ => 0
  | fuel + 1, n => if n ≤ 1 then 0 else clog2Fuel fuel ((n + 1) / 2) + 1

/-- Fuel-driven base-2 floor logarithm; with fuel `≥ n` it agrees with
`Nat.log 2 n`. -/
def log2Fuel : Nat → Nat → Nat
  | 0, _ => 0
  | fuel + 1, n => if n < 2 then 0 else log2Fuel fuel (n / 2) + 1

/-- Models Rust `usize::next_power_of_two`: the least power of two that is
`≥ n` (and `1` for `n = 0`). -/
def npow2 (n : Nat) : Nat := 2 ^ clog2Fuel n n

/-! ## Exception dispatch (src/qkernel/src/interrupt/mod.rs, `ExceptionHandler`)

`ExceptionHandler` first checks whether the exception came from ring 3; a
kernel-mode exception panics before the signal dispatch is reached.  For a
user-mode exception the `match ev` block below decides the signal and
`si_code`; the default arm panics.  We embed that match as a function from
the exception kind to `Option (signal, si_code)`, `none` meaning the
kernel-fatal panic arm. -/

/-- Exception vector kinds, mirroring `enum ExceptionStackVec` in
src/qkernel/src/interrupt/mod.rs. -/
inductive ExceptionStackVec where
  | DivideByZero
  | Debug
  | NMI
  | Breakpoint
  | Overflow
  | BoundRangeExceeded
  | InvalidOpcode
  | DeviceNotAvailable
  | DoubleFault
  | CoprocessorSegmentOverrun
  | InvalidTSS
  | SegmentNotPresent
  | StackSegmentFault
  | GeneralProtectionFault
  | PageFault
  | X87FloatingPointException
  | AlignmentCheck
  | MachineCheck
  | SIMDFloatingPointException
  | VirtualizationException
  | SecurityException
  | SyscallInt80
  | NrInterrupts
deriving DecidableEq, Repr

/-- The signal numbers named by the handler (`Signal::SIGFPE` etc.,
declared in qlib).  Kept symbolic: the handler and the spec table both
refer to them by name. -/
inductive Sig where
  | SIGFPE
  | SIGTRAP
  | SIGSEGV
  | SIGILL
  | SIGBUS
deriving DecidableEq, Repr

/-- Modelled from the spec: the `SI_KERNEL` si_code
(`SignalInfo::SIGNAL_INFO_KERNEL`; SignalDef.rs is not under src/).
Linux defines SI_KERNEL as 0x80; the exact value cancels out in the
comparison between code table and spec table. -/
def SIGNAL_INFO_KERNEL : Int := 0x80

/-- The signal/si_code produced by the `match ev` block of
`ExceptionHandler` (interrupt/mod.rs lines 187-313) for a user-mode
exception; `none` is the `panic!` default arm. -/
def exceptionHandlerSignal : ExceptionStackVec → Option (Sig × Int)
  | .DivideByZero => some (.SIGFPE, 1)
  | .Overflow => some (.SIGFPE, 2)
  | .X87FloatingPointException => some (.SIGFPE, 7)
  | .SIMDFloatingPointException => some (.SIGFPE, 7)
  | .Debug => some (.SIGTRAP, 1)
  | .Breakpoint => some (.SIGTRAP, 1)
  | .GeneralProtectionFault => some (.SIGSEGV, SIGNAL_INFO_KERNEL)
  | .SegmentNotPresent => some (.SIGSEGV, SIGNAL_INFO_KERNEL)
  | .BoundRangeExceeded => some (.SIGSEGV, SIGNAL_INFO_KERNEL)
  | .InvalidTSS => some (.SIGSEGV, SIGNAL_INFO_KERNEL)
  | .StackSegmentFault => some (.SIGSEGV, SIGNAL_INFO_KERNEL)
  | .InvalidOpcode => some (.SIGILL, 1)
  | .AlignmentCheck => some (.SIGBUS, 2)
  | _ => none

/-- The exception policy table as written in the spec (section 4.D):
divide → SIGFPE/FPE_INTDIV(1); overflow → SIGFPE/FPE_INTOVF(2);
x87/SIMD → SIGFPE/FPE_FLTINV(7); debug, breakpoint → SIGTRAP/TRAP_BRKPT(1);
GP, SS, NP, BR, TS → SIGSEGV/SI_KERNEL; invalid opcode → SIGILL/ILL_ILLOPC(1);
alignment check → SIGBUS/BUS_ADRERR(2); every other vector panics (`none`). -/
def specExceptionPolicy : ExceptionStackVec → Option (Sig × Int)
  | .DivideByZero => some (.SIGFPE, 1)
  | .Overflow => some (.SIGFPE, 2)
  | .X87FloatingPointException => some (.SIGFPE, 7)
  | .SIMDFloatingPointException => some (.SIGFPE, 7)
  | .Debug => some (.SIGTRAP, 1)
  | .Breakpoint => some (.SIGTRAP, 1)
  | .GeneralProtectionFault => some (.SIGSEGV, SIGNAL_INFO_KERNEL)
  | .StackSegmentFault => some (.SIGSEGV, SIGNAL_INFO_KERNEL)
  | .SegmentNotPresent => some (.SIGSEGV, SIGNAL_INFO_KERNEL)
  | .BoundRangeExceeded => some (.SIGSEGV, SIGNAL_INFO_KERNEL)
  | .InvalidTSS => some (.SIGSEGV, SIGNAL_INFO_KERNEL)
  | .InvalidOpcode => some (.SIGILL, 1)
  | .AlignmentCheck => some (.SIGBUS, 2)
  | _ => none

/-! ## Timers (src/qkernel/src/kernel/timer/raw_timer.rs)

`RawTimerInternal` carries a state, a sequence number and the io_uring
user data of the outstanding timeout.  `ResetRaw`, `Stop`/`StopRaw`,
`Reset` and `Fire` are embedded as pure state transformers returning the
new timer state together with the source function's boolean result.
External effects (`IOURING.RawTimeout` returning a fresh user-data value,
`AsyncTimerRemove`, `TIMER_STORE` mutation) do not affect the timer fields
beyond the `userData` assignment, which we model by passing the fresh
user-data value as a parameter. -/

/-- Timer states, mirroring `enum TimerState` in raw_timer.rs. -/
inductive TimerSt where
  | Expired
  | Running
  | Stopped
deriving DecidableEq, Repr

/-- The fields of `RawTimerInternal` that its operations read or write. -/
structure RawTimer where
  State : TimerSt
  SeqNo : Nat
  userData : Nat
deriving DecidableEq, Repr

/-- `RawTimerInternal::ResetRaw(delta)` (raw_timer.rs lines 55-82); `delta`
is asserted non-negative in the source, so it is a `Nat` here.  `freshUd`
is the user-data value returned by `IOURING.RawTimeout`. -/
def RawTimer.ResetRaw (t : RawTimer) (delta : Nat) (freshUd : Nat) : RawTimer × Bool :=
  if delta = 0 then
    if t.State ≠ .Running then (t, false)
    else ({ t with SeqNo := t.SeqNo + 1 }, true)
  else
    ({ State := .Running, SeqNo := t.SeqNo + 1, userData := freshUd }, false)

/-- `RawTimer::StopRaw` (raw_timer.rs lines 123-137): unconditionally sets
the state to `Stopped`, removes the outstanding io_uring timeout when the
timer was running, and returns `false`. -/
def RawTimer.StopRaw (t : RawTimer) : RawTimer × Bool :=
  ({ t with State := .Stopped }, false)

/-- The batched-mode branch of `RawTimer::Stop` (raw_timer.rs lines
144-167): sets the state to `Stopped`, removes the timer-store entry when
it was running, and returns `false`.  (With `config.RawTimer` set, `Stop`
just calls `StopRaw`.) -/
def RawTimer.StopBatched (t : RawTimer) : RawTimer × Bool :=
  ({ t with State := .Stopped }, false)

/-- The batched-mode branch of `RawTimer::Reset(delta)` (raw_timer.rs
lines 176-219). -/
def RawTimer.ResetBatched (t : RawTimer) (delta : Nat) : RawTimer × Bool :=
  if delta = 0 then
    if t.State ≠ .Running then (t, false)
    else ({ t with State := .Stopped, SeqNo := t.SeqNo + 1 }, true)
  else
    ({ t with State := .Running, SeqNo := t.SeqNo + 1 }, false)

/-- `RawTimer::Reset`, dispatching on `config.RawTimer` (raw_timer.rs
lines 172-219). -/
def RawTimer.Reset (cfgRawTimer : Bool) (t : RawTimer) (delta : Nat) (freshUd : Nat) :
    RawTimer × Bool :=
  if cfgRawTimer then t.ResetRaw delta freshUd else t.ResetBatched delta

/-- `RawTimer::Fire(SeqNo)` (raw_timer.rs lines 221-237).  Returns the new
timer state and whether the notifier (`Timer::Timeout`) was invoked.
`timeoutDelta` is the notifier's return value and `freshUd` the user data
of a re-armed timeout. -/
def RawTimer.Fire (cfgRawTimer : Bool) (t : RawTimer) (SeqNo : Nat)
    (timeoutDelta : Int) (freshUd : Nat) : RawTimer × Bool :=
  if SeqNo ≠ t.SeqNo ∨ t.State ≠ .Running then (t, false)
  else
    let t1 := { t with State := .Expired }
    if 0 < timeoutDelta then
      ((RawTimer.Reset cfgRawTimer t1 timeoutDelta.toNat freshUd).1, true)
    else (t1, true)

/-! ## Host-call transport (src/qkernel/src/Kernel.rs, `HostSpace::Call`
and `ShareSpace::Notify`) -/

/-- Host I/O thread state, mirroring `IOThreadState`. -/
inductive IoThreadSt where
  | WAITING
  | RUNNING
deriving DecidableEq, Repr

/-- The ShareSpace fields read or written by `Call` and `Notify`:
the atomic I/O thread state, the atomic `hostMsgCount`, and a counter of
host eventfd writes (each `IOURING.EventfdWrite` call increments it). -/
structure ShareSpaceSt where
  ioThreadState : IoThreadSt
  hostMsgCount : Nat
  eventfdWrites : Nat
deriving DecidableEq, Repr

/-- `ShareSpace::Notify` (Kernel.rs lines 1031-1040): atomically swaps
`IOThreadState` to RUNNING; if the prior value was WAITING, writes the
host eventfd and returns `true`. -/
def ShareSpaceSt.Notify (s : ShareSpaceSt) : ShareSpaceSt × Bool :=
  let old := s.ioThreadState
  let s1 := { s with ioThreadState := .RUNNING }
  if old = .WAITING then
    ({ s1 with eventfdWrites := s1.eventfdWrites + 1 }, true)
  else (s1, false)

/-- How a host call is carried out: a synchronous `HCall` hypercall, or a
message queued on the output ring (`QCall`) followed by a task wait. -/
inductive CallShape where
  | hcall
  | qcall
deriving DecidableEq, Repr

/-- `HostSpace::Call` (Kernel.rs lines 873-897), up to the point where the
call shape is decided: increments `hostMsgCount`, calls `Notify`, and
promotes to a synchronous HCall (undoing the increment) exactly when
`Notify` returned `true` and the call is not marked `mustAsync`. -/
def hostSpaceCall (s : ShareSpaceSt) (mustAsync : Bool) : ShareSpaceSt × CallShape :=
  let s1 := { s with hostMsgCount := add64 s.hostMsgCount 1 }
  let (s2, notified) := s1.Notify
  if notified ∧ ¬ mustAsync then
    ({ s2 with hostMsgCount := sub64 s2.hostMsgCount 1 }, .hcall)
  else (s2, .qcall)

/-! ## Host file read/write error policy
(src/qkernel/src/fs/host/hostfileop.rs, `HostFileOp::ReadAt` /
`HostFileOp::WriteAt`, regular-file branch)

For a regular host file with `config.TcpBuffIO` enabled, the operation is
first submitted through io_uring (`IOURING.Read`/`IOURING.Write`).  We
embed the result-dispatch logic, parameterising over the io_uring result,
the outcome of the plain host-syscall fallback (`IOReadAt`/`IOWriteAt`)
and the outcome of the user-memory copy (`CopyDataOutToIovs`). -/

/-- Errors surfaced by the read/write paths: a POSIX `SysError(errno)`
from a host call, or the error propagated from a failed user-memory copy. -/
inductive FileIoErr where
  | sysError (errno : Int)
  | copyFault
deriving DecidableEq, Repr

/-- `SysErr::EINVAL` (value 22, from qlib's linux_def errno table). -/
def EINVAL : Int := 22

/-- The regular-file branch of `HostFileOp::ReadAt` (hostfileop.rs lines
238-271): with TcpBuffIO, an io_uring result `< 0` other than `-EINVAL`
is returned as `SysError(-ret)`; `-EINVAL` falls back to `IOReadAt`; a
non-negative result is copied out to the caller's iovecs and returned.
`copyOk` is whether `CopyDataOutToIovs` succeeds; `fallback` is the
`IOReadAt` host-syscall result. -/
def hostFileReadAtRegular (tcpBuffIo : Bool) (uringRet : Int) (copyOk : Bool)
    (fallback : Except FileIoErr Int) : Except FileIoErr Int :=
  let fallbackPath : Except FileIoErr Int :=
    match fallback with
    | .error e => .error e
    | .ok r => if copyOk then .ok r else .error .copyFault
  if tcpBuffIo then
    if uringRet < 0 then
      if uringRet ≠ -EINVAL then .error (.sysError (-uringRet))
      else fallbackPath
    else
      if copyOk then .ok uringRet else .error .copyFault
  else fallbackPath

/-- The regular-file branch of `HostFileOp::WriteAt` (hostfileop.rs lines
286-321): same io_uring result dispatch; the fallback is `IOWriteAt`.
(The copy-in from user memory happens before this dispatch; a copy-in
failure returns early and never reaches it.) -/
def hostFileWriteAtRegular (tcpBuffIo : Bool) (uringRet : Int)
    (fallback : Except FileIoErr Int) : Except FileIoErr Int :=
  if tcpBuffIo then
    if uringRet < 0 then
      if uringRet ≠ -EINVAL then .error (.sysError (-uringRet))
      else fallback
    else .ok uringRet
  else fallback

/-! ## Heap allocator
(src/qlib/mem/list_allocator.rs and the buddy heap in
src/qkernel/src/buddy_allocator.rs)

The buddy heap's per-order free lists (`free_list: [LinkedList; ORDER]`)
are modelled as a function from the order index to the list of free block
addresses, list head first (`LinkedList::push` prepends, `pop` takes the
head).  The tier-2 per-class caches (`bufs: [QMutex<FreeMemBlockMgr>; 16]`)
are modelled likewise; their `MemList` pushes at the tail and pops at the
head.  Intrusive link words stored inside the free blocks are represented
by the lists themselves. -/

/-- `ORDER` in list_allocator.rs / buddy_allocator.rs. -/
def ORDER : Nat := 33

/-- `CLASS_CNT` in list_allocator.rs. -/
def CLASS_CNT : Nat := 16

/-- `FREE_BATCH` in list_allocator.rs. -/
def FREE_BATCH : Nat := 10

/-- The rounded allocation size computed identically in
`ListAllocator::alloc`, `ListAllocator::dealloc` and `Heap::alloc`:
`max(layout.size().next_power_of_two(), max(layout.align(), size_of::<usize>()))`. -/
def allocSize (s a : Nat) : Nat := max (npow2 s) (max a 8)

/-- The size class `size.trailing_zeros()`.  `allocSize` always yields a
power of two, for which trailing-zero count and base-2 logarithm agree. -/
def sizeClass (size : Nat) : Nat := log2Fuel size size

/-- Update one entry of a function-indexed array of lists. -/
def flUpd (fl : Nat → List Nat) (k : Nat) (v : List Nat) : Nat → List Nat :=
  fun i => if i = k then v else fl i

/-- One iteration of the buddy-split loop in `Heap::alloc`
(buddy_allocator.rs lines 81-93): pop a block from `free_list[j]`, push
its upper half and then the block itself onto `free_list[j-1]`. -/
def splitStep (fl : Nat → List Nat) (j : Nat) : Option (Nat → List Nat) :=
  match fl j with
  | [] => none
  | b :: rest =>
    let fl1 := flUpd fl j rest
    some (flUpd fl1 (j - 1) (b :: (b + 2 ^ (j - 1)) :: fl1 (j - 1)))

/-- The split loop `for j in (class + 1..i + 1).rev()` with `i = cls + n`:
split steps at `j = cls + n, cls + n - 1, ..., cls + 1`. -/
def splitDown (fl : Nat → List Nat) (cls : Nat) : Nat → Option (Nat → List Nat)
  | 0 => some fl
  | n + 1 =>
    match splitStep fl (cls + n + 1) with
    | none => none
    | some fl1 => splitDown fl1 cls n

/-- Scan `for i in class..free_list.len()` for the first non-empty order. -/
def findFrom (fl : Nat → List Nat) (i : Nat) : Nat → Option Nat
  | 0 => none
  | fuel + 1 => if fl i ≠ [] then some i else findFrom fl (i + 1) fuel

/-- `Heap::alloc` (buddy_allocator.rs lines 70-114): find the first
non-empty order at or above the request's class, split buddies down to the
class, and pop the head block. -/
def buddyAlloc (fl : Nat → List Nat) (s a : Nat) : Option (Nat × (Nat → List Nat)) :=
  let size := allocSize s a
  let cls := sizeClass size
  match findFrom fl cls (ORDER - cls) with
  | none => none
  | some i =>
    match splitDown fl cls (i - cls) with
    | none => none
    | some fl1 =>
      match fl1 cls with
      | [] => none
      | p :: rest => some (p, flUpd fl1 cls rest)

/-- Remove the first occurrence of `a` (the `iter_mut` search-and-pop in
`Heap::dealloc`). -/
def removeFirst (a : Nat) : List Nat → List Nat
  | [] => []
  | x :: xs => if x = a then xs else x :: removeFirst a xs

/-- The buddy-merge loop of `Heap::dealloc` (buddy_allocator.rs lines
128-151): while the XOR-buddy of the current block is in the current
order's list, remove the buddy, pop the current block (the list head),
and push the merged block one order up. -/
def mergeLoop (fl : Nat → List Nat) (p cls : Nat) : Nat → (Nat → List Nat)
  | 0 => fl
  | fuel + 1 =>
    if cls < ORDER then
      let bud := p ^^^ 2 ^ cls
      if bud ∈ fl cls then
        let l1 := removeFirst bud (fl cls)
        let l2 := match l1 with
          | [] => []
          | _ :: t => t
        let fl1 := flUpd fl cls l2
        let merged := min p bud
        let fl2 := flUpd fl1 (cls + 1) (merged :: fl1 (cls + 1))
        mergeLoop fl2 merged (cls + 1) fuel
      else fl
    else fl

/-- `Heap::dealloc` (buddy_allocator.rs lines 117-156): push the block on
its class list, then merge with free buddies upward. -/
def buddyDealloc (fl : Nat → List Nat) (p s a : Nat) : Nat → List Nat :=
  let size := allocSize s a
  let cls := sizeClass size
  mergeLoop (flUpd fl cls (p :: fl cls)) p cls (ORDER + 1)

/-- `MemList::Pop` (list_allocator.rs lines 336-356): returns the head
address, or `0` when the list is empty. -/
def memListPop (l : List Nat) : Nat × List Nat :=
  match l with
  | [] => (0, [])
  | a :: rest => (a, rest)

/-- `MemList::Push` (list_allocator.rs lines 313-334): asserts the address
is aligned to the class block size, then appends at the tail.  `none`
models the assertion panic. -/
def memListPush (size : Nat) (l : List Nat) (addr : Nat) : Option (List Nat) :=
  if addr % size = 0 then some (l ++ [addr]) else none

/-- `FreeMemBlockMgr`: the block count and the intrusive free list of one
tier-2 size class. -/
structure MemBlockMgr where
  count : Nat
  list : List Nat
deriving DecidableEq, Repr

/-- `FreeMemBlockMgr::Alloc` (list_allocator.rs lines 243-256): if the
count is positive, decrement it and pop the list head. -/
def MemBlockMgr.alloc (m : MemBlockMgr) : Option (Nat × MemBlockMgr) :=
  if 0 < m.count then
    let (ret, l1) := memListPop m.list
    some (ret, { count := m.count - 1, list := l1 })
  else none

/-- `FreeMemBlockMgr::Dealloc` (list_allocator.rs lines 258-269):
increment the count and push the block; `none` models the `Push`
alignment-assertion panic. -/
def MemBlockMgr.dealloc (m : MemBlockMgr) (size addr : Nat) : Option MemBlockMgr :=
  match memListPush size m.list addr with
  | none => none
  | some l1 => some { count := m.count + 1, list := l1 }

/-- The per-class `reserve` low-water marks from `ListAllocator::Empty`
(list_allocator.rs lines 51-68). -/
def classReserve (c : Nat) : Nat :=
  [0, 0, 0, 128, 128, 128, 64, 64, 64, 32, 32, 16, 1024, 16, 8, 8].getD c 0

/-- The `ListAllocator` state: tier-2 class managers, the buddy heap's
free lists, the three atomic counters, and the arena range. -/
structure ListAllocatorSt where
  bufs : Nat → MemBlockMgr
  heap : Nat → List Nat
  total : Nat
  free : Nat
  bufSize : Nat
  rangeStart : Nat
  rangeLen : Nat

/-- Models qlib `Range::Contains` (range.rs is not under src/): the arena
range is `[start, start + len)`. -/
def ListAllocatorSt.contains (st : ListAllocatorSt) (addr : Nat) : Prop :=
  st.rangeStart ≤ addr ∧ addr < st.rangeStart + st.rangeLen

instance (st : ListAllocatorSt) (addr : Nat) : Decidable (st.contains addr) := by
  unfold ListAllocatorSt.contains
  infer_instance

/-- `ListAllocator::alloc` (list_allocator.rs lines 151-188): round the
request, try the tier-2 class cache for classes 3..15 (decrementing
`bufSize` on a hit, leaving `free` untouched), otherwise allocate from
the buddy heap and decrement `free`.  `none` models the OOM path
(`handleError` + `loop \x7b\x7d`). -/
def qalloc (st : ListAllocatorSt) (s a : Nat) : Option (Nat × ListAllocatorSt) :=
  let size := allocSize s a
  let cls := sizeClass size
  let buddyPath : Option (Nat × ListAllocatorSt) :=
    match buddyAlloc st.heap s a with
    | none => none
    | some (p, heap1) =>
      some (p, { st with heap := heap1, free := sub64 st.free size })
  if 3 ≤ cls ∧ cls < CLASS_CNT then
    match (st.bufs cls).alloc with
    | some (ret, m1) =>
      some (ret, { st with bufs := fun i => if i = cls then m1 else st.bufs i,
                           bufSize := sub64 st.bufSize size })
    | none => buddyPath
  else buddyPath

/-- `ListAllocator::dealloc` (list_allocator.rs lines 190-213): round the
size; silently drop addresses outside the arena range; otherwise increment
`free` and `bufSize`, then park the block in its tier-2 class (classes
0..15) or return it to the buddy heap.  `none` models the tier-2 push
alignment-assertion panic. -/
def qdealloc (st : ListAllocatorSt) (p s a : Nat) : Option ListAllocatorSt :=
  let size := allocSize s a
  let cls := sizeClass size
  if ¬ (st.contains p ∧ st.contains (p + size)) then some st
  else
    let st1 := { st with free := add64 st.free size, bufSize := add64 st.bufSize size }
    if cls < CLASS_CNT then
      match (st1.bufs cls).dealloc size p with
      | none => none
      | some m1 =>
        some { st1 with bufs := fun i => if i = cls then m1 else st1.bufs i }
    else
      some { st1 with heap := buddyDealloc st1.heap p s a }

/-- `ListAllocator::NeedFree` (list_allocator.rs lines 115-130):
`total * 30 / 100 > free && free * 50 / 100 < bufSize`, with the wrapping
`usize` products. -/
def needFree (st : ListAllocatorSt) : Prop :=
  st.free < mul64 st.total 30 / 100 ∧ mul64 st.free 50 / 100 < st.bufSize

instance (st : ListAllocatorSt) : Decidable (needFree st) := by
  unfold needFree
  infer_instance

/-- The spec's drain predicate as written: "`free < total · 30%` AND
`bufSize > free · 50%`" (no wrap-around). -/
def specNeedFree (st : ListAllocatorSt) : Prop :=
  st.free < st.total * 30 / 100 ∧ st.free * 50 / 100 < st.bufSize

/-- `FreeMemBlockMgr::FreeMultiple` (list_allocator.rs lines 281-291):
free up to `n` blocks from this class to the buddy heap, stopping at the
class's reserve count; returns the new manager, the new buddy free lists,
and how many blocks were freed.  Each freed block is returned to the
buddy heap with the class's own layout `(size, size)`
(`FreeMemBlockMgr::Free`, lines 271-279). -/
def freeMultiple (m : MemBlockMgr) (size resv : Nat) (fl : Nat → List Nat) :
    Nat → MemBlockMgr × (Nat → List Nat) × Nat
  | 0 => (m, fl, 0)
  | n + 1 =>
    if m.count ≤ resv then (m, fl, 0)
    else
      let pop := memListPop m.list
      let fl1 := buddyDealloc fl pop.1 size size
      let m1 : MemBlockMgr := { count := m.count - 1, list := pop.2 }
      let r := freeMultiple m1 size resv fl1 n
      (r.1, r.2.1, r.2.2 + 1)

/-- The loop body of `ListAllocator::Free` (list_allocator.rs lines
133-147), with `fuel` running 16 → 0 so the visited class `idx = fuel - 1`
descends 15, 14, …, 0; `count` blocks freed so far.  At each class
boundary the pass returns early when `NeedFree` no longer holds or
`FREE_BATCH` blocks have been freed.  Returns the state, the total number
of freed blocks, and the trace of visited class indices. -/
def drainLoop (st : ListAllocatorSt) (count : Nat) :
    Nat → ListAllocatorSt × Nat × List Nat
  | 0 => (st, count, [])
  | fuel + 1 =>
    if ¬ needFree st ∨ count = FREE_BATCH then (st, count, [])
    else
      let idx := fuel
      let size := 2 ^ idx
      let r := freeMultiple (st.bufs idx) size (classReserve idx) st.heap (FREE_BATCH - count)
      let st1 := { st with bufs := fun i => if i = idx then r.1 else st.bufs i,
                           heap := r.2.1,
                           bufSize := sub64 st.bufSize (r.2.2 * size) }
      let r2 := drainLoop st1 (count + r.2.2) fuel
      (r2.1, r2.2.1, idx :: r2.2.2)

/-- `ListAllocator::Free`: one full drain pass. -/
def qfree (st : ListAllocatorSt) : ListAllocatorSt × Nat × List Nat :=
  drainLoop st 0 CLASS_CNT

/-- Alignment invariant of the buddy free lists: every block parked at
order `k` is aligned to `2^k`.  `Heap::add_to_heap` establishes this
(each inserted block's size divides its address' low bit) and the claims
below show `alloc`/`dealloc` preserve it. -/
def BuddyAligned (fl : Nat → List Nat) : Prop :=
  ∀ k, ∀ x ∈ fl k, 2 ^ k ∣ x

/-- Alignment invariant of the tier-2 caches: every block parked in class
`c` is aligned to the class block size `2^c`, and the tracked count
matches the list length. -/
def Tier2Good (bufs : Nat → MemBlockMgr) : Prop :=
  ∀ c, (∀ x ∈ (bufs c).list, 2 ^ c ∣ x) ∧ (bufs c).count = (bufs c).list.length

/-! ## Page-fault handling (src/qkernel/src/interrupt/mod.rs,
`PageFaultHandler` and `HandleFault`)

The handler's user-mode path looks up the VMA containing the faulting
address under the memory manager's write lock and decides between
installing pages, copy-on-write, or signal delivery.  The VMA lookup and
`MemoryManager::InstallPageLocked` are external to this file's sources,
so they enter the model as parameters: the lookup result, and an install
oracle giving the outcome of installing any one page.  The model records
the exact sequence of page addresses passed to `InstallPageLocked`. -/

/-- `MemoryDef::PAGE_SIZE`. -/
def PAGE_SIZE : Nat := 4096

/-- The VMA fields read by `PageFaultHandler`. -/
structure VmaInfo where
  kernel : Bool
  growsDown : Bool
  isPrivate : Bool
  permRead : Bool
  permWrite : Bool
deriving DecidableEq, Repr

/-- A VMA's virtual-address range `[start, start + len)`. -/
structure VmaRange where
  start : Nat
  len : Nat
deriving DecidableEq, Repr

/-- Models qlib `Range::Contains`. -/
def VmaRange.contains (r : VmaRange) (addr : Nat) : Prop :=
  r.start ≤ addr ∧ addr < r.start + r.len

instance (r : VmaRange) (addr : Nat) : Decidable (r.contains addr) := by
  unfold VmaRange.contains
  infer_instance

/-- Result of `MemoryManager::InstallPageLocked` for one page. -/
inductive InstallRes where
  | ok
  | fileMapErr
  | otherErr
deriving DecidableEq, Repr

/-- Outcome of the user-mode page-fault path: resume to the application
(with the sequence of page addresses passed to `InstallPageLocked`),
resume after copy-on-write of a page, deliver a signal via `HandleFault`,
or panic. -/
inductive PfOutcome where
  | resume (installed : List Nat)
  | cowResume (addr : Nat)
  | fault (sig : Sig) (code : Int)
  | kernelFatal
deriving DecidableEq, Repr

/-- `HandleFault` (interrupt/mod.rs lines 601-637) for a user-mode fault:
si_code is SEGV_MAPERR (1) for a non-write, non-execute access and
SEGV_ACCERR (2) otherwise. -/
def handleFaultSignal (errorCode : Nat) (sig : Sig) : PfOutcome :=
  let write := errorCode &&& 2 ≠ 0
  let execute := errorCode &&& 16 ≠ 0
  if ¬ write ∧ ¬ execute then .fault sig 1 else .fault sig 2

/-- The speculative pre-install loop `for i in 1..8` of `PageFaultHandler`
(interrupt/mod.rs lines 539-555), started at `i = 1` with 7 rounds of
fuel.  Each round computes the neighbour address `addr` in the growth
direction and checks it against the VMA range, but the install call it
then makes passes `pageAddr` — the original faulting page — not `addr`
(line 546).  The returned list records the addresses actually passed to
`InstallPageLocked`. -/
def specInstallLoop (install : Nat → InstallRes) (range : VmaRange)
    (growsDown : Bool) (pageAddr : Nat) (i : Nat) : Nat → List Nat
  | 0 => []
  | fuel + 1 =>
    let addr := if growsDown then sub64 pageAddr (i * PAGE_SIZE)
                else pageAddr + i * PAGE_SIZE
    if range.contains addr then
      match install pageAddr with
      | .ok => pageAddr :: specInstallLoop install range growsDown pageAddr (i + 1) fuel
      | _ => []
    else []

/-- The user-mode body of `PageFaultHandler` (interrupt/mod.rs lines
487-599): VMA lookup, permission checks, page install with speculative
pre-install, copy-on-write, or signal generation through `HandleFault`.
`lookup` is the result of `GetVmaAndRangeLocked(cr2)` and `install` the
`InstallPageLocked` oracle. -/
def pageFaultHandlerUser (lookup : Option (VmaInfo × VmaRange))
    (errorCode cr2 : Nat) (install : Nat → InstallRes) : PfOutcome :=
  match lookup with
  | none => handleFaultSignal errorCode .SIGSEGV
  | some (vma, range) =>
    if vma.kernel then handleFaultSignal errorCode .SIGSEGV
    else if ¬ vma.permRead then handleFaultSignal errorCode .SIGSEGV
    else
      let pageAddr := cr2 / PAGE_SIZE * PAGE_SIZE
      if errorCode &&& 1 = 0 then
        match install pageAddr with
        | .fileMapErr => handleFaultSignal errorCode .SIGBUS
        | .otherErr => .kernelFatal
        | .ok =>
          .resume (pageAddr ::
            specInstallLoop install range vma.growsDown pageAddr 1 7)
      else if ¬ vma.isPrivate then handleFaultSignal errorCode .SIGSEGV
      else if errorCode &&& 2 ≠ 0 then
        if ¬ vma.permWrite then handleFaultSignal errorCode .SIGSEGV
        else .cowResume pageAddr
      else handleFaultSignal errorCode .SIGSEGV

/-- The behaviour claimed by the spec for the page-absent case: the
faulting page is installed and then up to 7 neighbouring pages at
consecutive page addresses in the growth direction, stopping at the VMA
boundary (assuming every install succeeds). -/
def specClaimedInstalls (range : VmaRange) (growsDown : Bool) (pageAddr : Nat) : List Nat :=
  pageAddr :: ((List.range 7).filterMap (fun j =>
    let addr := if growsDown then sub64 pageAddr ((j + 1) * PAGE_SIZE)
                else pageAddr + (j + 1) * PAGE_SIZE
    if range.contains addr then some addr else none))

/-! ## Tid assignment (src/qkernel/src/threadmgr/threads.rs,
`TaskSetInternal::AssignTids`)

A PID namespace's maps are association lists: `tasks : tid → thread`,
`tids : thread → tid`, `tgids : thread-group → tgid`.  Threads and thread
groups are identified by numeric ids.  `PIDNamespace::AllocateTID`
(pid_namespace.rs, not under src/) is modelled as an oracle list giving,
for each namespace in the ancestor chain, either the allocated tid or the
allocation failure. -/

/-- Association-map removal: drop every pair with the given key. -/
def mapRemove (k : Nat) (m : List (Nat × Nat)) : List (Nat × Nat) :=
  m.filter (fun p => p.1 ≠ k)

/-- Association-map insert, modelling `BTreeMap::insert` (replace any
existing binding of the key). -/
def mapInsert (k v : Nat) (m : List (Nat × Nat)) : List (Nat × Nat) :=
  (k, v) :: mapRemove k m

/-- One PID namespace's maps. -/
structure PidNs where
  tasks : List (Nat × Nat)
  tids : List (Nat × Nat)
  tgids : List (Nat × Nat)
deriving DecidableEq, Repr

/-- The per-namespace insertions of the `AssignTids` success path
(threads.rs lines 85-91): `tasks.insert(tid, t)`, `tids.insert(t, tid)`,
and `tgids.insert(tg, tid)` when the thread group has no leader yet. -/
def assignStep (ns : PidNs) (tid t tg : Nat) (leaderNone : Bool) : PidNs :=
  { tasks := mapInsert tid t ns.tasks,
    tids := mapInsert t tid ns.tids,
    tgids := if leaderNone then mapInsert tg tid ns.tgids else ns.tgids }

/-- The per-namespace removals of the `AssignTids` error path
(threads.rs lines 70-78): `tasks.remove(&a.tid)` and `tids.remove(&t)`
on the namespace recorded in `allocatedTIDs`. -/
def rollbackOne (ns : PidNs) (tid t : Nat) : PidNs :=
  { ns with tasks := mapRemove tid ns.tasks, tids := mapRemove t ns.tids }

/-- The `AssignTids` loop (threads.rs lines 67-104) over the ancestor
chain of PID namespaces.  `pending` holds the yet-unvisited namespaces
(child-most first, root last — the loop breaks after the namespace whose
`parent` is `None`); `allocs` the `AllocateTID` oracle results;
`processed` the `allocatedTIDs` vector paired with each namespace's
post-insertion state.  On an allocation failure the error path rolls back
`tasks` and `tids` in every processed namespace and — once per processed
entry — removes the thread group from the tgids map of `pidns`, which at
that point is the namespace whose allocation failed (removing the same
key repeatedly equals removing it once).  Returns whether the call
succeeded and the final chain. -/
def assignLoop (t tg : Nat) (leaderNone : Bool) :
    List PidNs → List (Option Nat) → List (PidNs × Nat) → Bool × List PidNs
  | [], _, processed => (true, processed.map Prod.fst)
  | ns :: rest, [], processed => (true, processed.map Prod.fst ++ ns :: rest)
  | ns :: rest, some tid :: as1, processed =>
    assignLoop t tg leaderNone rest as1
      (processed ++ [(assignStep ns tid t tg leaderNone, tid)])
  | ns :: rest, none :: _, processed =>
    let rolled := processed.map (fun q => rollbackOne q.1 q.2 t)
    let nsF := if leaderNone ∧ 0 < processed.length then
        { ns with tgids := mapRemove tg ns.tgids }
      else ns
    (false, rolled ++ nsF :: rest)

/-- `TaskSetInternal::AssignTids`: run the loop over the whole ancestor
chain with an empty `allocatedTIDs` vector. -/
def assignTids (chain : List PidNs) (allocs : List (Option Nat)) (t tg : Nat)
    (leaderNone : Bool) : Bool × List PidNs :=
  assignLoop t tg leaderNone chain allocs []

/-! ## Concrete allocator trace for the counter-accounting check

A 1 MiB arena `[2^20, 2^21)` whose buddy heap holds one free 1 MiB block;
the trace allocates a 64-byte block (served by the buddy heap), frees it
(parking it in tier-2 class 6), and allocates again (served by the tier-2
cache). -/

/-- Initial allocator state of the trace. -/
def c2State0 : ListAllocatorSt where
  bufs := fun _ => ⟨0, []⟩
  heap := fun i => if i = 20 then [1048576] else []
  total := 1048576
  free := 1048576
  bufSize := 0
  rangeStart := 1048576
  rangeLen := 1048576

/-- First allocation: 64 bytes, 8-byte alignment, from the buddy heap. -/
def c2Alloc1 : Option (Nat × ListAllocatorSt) := qalloc c2State0 64 8

/-- State after the first allocation. -/
def c2State1 : ListAllocatorSt := (c2Alloc1.map Prod.snd).getD c2State0

/-- Pointer returned by the first allocation. -/
def c2Ptr1 : Nat := (c2Alloc1.map Prod.fst).getD 0

/-- State after freeing the block (parked in tier-2 class 6). -/
def c2State2 : ListAllocatorSt := (qdealloc c2State1 c2Ptr1 64 8).getD c2State1

/-- Second allocation of the same class, served by the tier-2 cache. -/
def c2Alloc3 : Option (Nat × ListAllocatorSt) := qalloc c2State2 64 8

/-- State after the second allocation. -/
def c2State3 : ListAllocatorSt := (c2Alloc3.map Prod.snd).getD c2State2

/-- The `FreeMultiple` call made by one iteration of the drain loop for
class `f` with `count` blocks already freed. -/
def stepFM (st : ListAllocatorSt) (count f : Nat) :
    MemBlockMgr × (Nat → List Nat) × Nat :=
  freeMultiple (st.bufs f) (2 ^ f) (classReserve f) st.heap (FREE_BATCH - count)

/-- The allocator state after one iteration of the drain loop on class
`f`: the class manager and buddy lists are replaced by the
`FreeMultiple` results and `bufSize` drops by the bytes returned. -/
def stepState (st : ListAllocatorSt) (count f : Nat) : ListAllocatorSt :=
  { st with
    bufs := fun i => if i = f then (stepFM st count f).1 else st.bufs i,
    heap := (stepFM st count f).2.1,
    bufSize := sub64 st.bufSize ((stepFM st count f).2.2 * 2 ^ f) }

/-- A concrete allocator state for exercising a drain pass: tier-2 class
14 holds nine parked 16 KiB blocks (reserve 8), memory is scarce
(`free` far below 30% of `total`) and `bufSize` far above 50% of `free`,
so `NeedFree` holds and the pass returns one block to the buddy heap. -/
def c5State : ListAllocatorSt where
  bufs := fun i => if i = 14 then
      ⟨9, [16384, 32768, 49152, 65536, 81920, 98304, 114688, 131072, 147456]⟩
    else ⟨0, []⟩
  heap := fun _ => []
  total := 1000000
  free := 100
  bufSize := 147456
  rangeStart := 0
  rangeLen := 1000000

/-- Claim C6: for every exception raised from user mode, `ExceptionHandler`
generates exactly the signal and si_code of the spec's exception policy
table, and every vector not in the table panics. -/
theorem C6_exception_policy :
    ∀ ev : ExceptionStackVec, exceptionHandlerSignal ev = specExceptionPolicy ev := by
  intro ev
  cases ev <;> rfl

/-- `sub64` undoes `add64 _ 1` on any in-range counter value. -/
theorem sub64_add64_one (x : Nat) (h : x < W64) : sub64 (add64 x 1) 1 = x := by
  have hw : W64 = 18446744073709551616 := by norm_num [W64]
  simp only [add64, sub64, hw] at *
  omega

/-- Claim C9: `RawTimer::Stop` and `RawTimer::StopRaw` always return
`false` — also when they actually transition the timer to `Stopped` —
contrary to their documentation comment. -/
theorem C9_stop_returns_false (t : RawTimer) :
    (t.StopRaw).2 = false ∧ (t.StopBatched).2 = false ∧
    (t.StopRaw).1.State = .Stopped ∧ (t.StopBatched).1.State = .Stopped :=
  ⟨rfl, rfl, rfl, rfl⟩

/-- Claim C3, counterexample: stopping a `Running` timer with sequence
number 5 leaves the sequence number at 5 — `Stop`/`StopRaw` do not leave
`seqNo` strictly larger than before. -/
theorem C3_counterexample :
    (RawTimer.StopRaw ⟨.Running, 5, 0⟩).1.SeqNo = 5 ∧
    ¬ ((⟨.Running, 5, 0⟩ : RawTimer).SeqNo <
        (RawTimer.StopRaw ⟨.Running, 5, 0⟩).1.SeqNo) := by
  decide

/-- Claim C3 (amended): a timer's `seqNo` never decreases across
`ResetRaw` and `Stop` operations; `ResetRaw` strictly increments it
except when cancelling (`delta = 0`) a timer that is not `Running` (a
no-op); `Stop` and `StopRaw` leave it unchanged; and a `Fire` delivered
with a sequence number different from the timer's current `seqNo`, or
while the timer is not `Running`, is a no-op. -/
theorem C3_seqno_monotonic (t : RawTimer) (delta freshUd : Nat) :
    t.SeqNo ≤ (t.ResetRaw delta freshUd).1.SeqNo ∧
    (¬ (delta = 0 ∧ t.State ≠ .Running) →
      (t.ResetRaw delta freshUd).1.SeqNo = t.SeqNo + 1) ∧
    (delta = 0 ∧ t.State ≠ .Running → (t.ResetRaw delta freshUd).1 = t) ∧
    (t.StopRaw).1.SeqNo = t.SeqNo ∧
    (t.StopBatched).1.SeqNo = t.SeqNo ∧
    (∀ cfg seq td ud, seq ≠ t.SeqNo ∨ t.State ≠ .Running →
      RawTimer.Fire cfg t seq td ud = (t, false)) := by
  refine ⟨?_, ?_, ?_, rfl, rfl, ?_⟩
  · unfold RawTimer.ResetRaw
    split_ifs <;> simp
  · intro h
    unfold RawTimer.ResetRaw
    rcases Nat.eq_zero_or_pos delta with h0 | h0
    · have hrun : t.State = .Running := by
        by_contra hs
        exact h ⟨h0, hs⟩
      simp [h0, hrun]
    · simp [Nat.pos_iff_ne_zero.mp h0]
  · rintro ⟨h0, hs⟩
    unfold RawTimer.ResetRaw
    simp [h0, hs]
  · intro cfg seq td ud h
    unfold RawTimer.Fire
    simp only [if_pos h]

/-- Witness for C3: a concrete reset increments the sequence number and a
concrete stale fire is a no-op. -/
theorem C3_seqno_monotonic_witness :
    ((⟨.Running, 5, 0⟩ : RawTimer).ResetRaw 3 1).1.SeqNo = 6 ∧
    RawTimer.Fire true ⟨.Running, 5, 0⟩ 4 0 0 = (⟨.Running, 5, 0⟩, false) := by
  have h := C3_seqno_monotonic ⟨.Running, 5, 0⟩ 3 1
  constructor
  · rw [h.2.1 (by decide)]
  · exact h.2.2.2.2.2 true 4 0 0 (by decide)

/-- Claim C4: `HostSpace::Call` promotes to a synchronous HCall exactly
when `ShareSpace::Notify` observed `WAITING` at the swap and the call is
not `mustAsync`, undoing its `hostMsgCount` increment in that case; and
`Notify` swaps `IOThreadState` to RUNNING and writes the host eventfd if
and only if the value before the swap was WAITING. -/
theorem C4_call_promotion (s : ShareSpaceSt) (mustAsync : Bool)
    (hc : s.hostMsgCount < W64) :
    s.Notify.1.ioThreadState = .RUNNING ∧
    (s.Notify.2 = true ↔ s.ioThreadState = .WAITING) ∧
    s.Notify.1.eventfdWrites =
      (if s.ioThreadState = .WAITING then s.eventfdWrites + 1 else s.eventfdWrites) ∧
    ((hostSpaceCall s mustAsync).2 = .hcall ↔
      (s.ioThreadState = .WAITING ∧ mustAsync = false)) ∧
    ((hostSpaceCall s mustAsync).2 = .hcall →
      (hostSpaceCall s mustAsync).1.hostMsgCount = s.hostMsgCount) ∧
    ((hostSpaceCall s mustAsync).2 = .qcall →
      (hostSpaceCall s mustAsync).1.hostMsgCount = add64 s.hostMsgCount 1) := by
  have hid := sub64_add64_one s.hostMsgCount hc
  cases hio : s.ioThreadState <;> cases mustAsync <;>
    simp_all [ShareSpaceSt.Notify, hostSpaceCall, hio]

/-- Witness for C4: a concrete call against a WAITING host I/O thread is
promoted to an HCall and leaves `hostMsgCount` unchanged. -/
theorem C4_call_promotion_witness :
    (hostSpaceCall ⟨.WAITING, 3, 0⟩ false).2 = .hcall ∧
    (hostSpaceCall ⟨.WAITING, 3, 0⟩ false).1.hostMsgCount = 3 := by
  have h := C4_call_promotion ⟨.WAITING, 3, 0⟩ false (by norm_num [W64])
  have hk : (hostSpaceCall ⟨.WAITING, 3, 0⟩ false).2 = .hcall := h.2.2.2.1.mpr ⟨rfl, rfl⟩
  exact ⟨hk, h.2.2.2.2.1 hk⟩

/-- Claim C7: for `ReadAt`/`WriteAt` on a regular host file with TcpBuffIO
enabled, an io_uring result of `-EINVAL` falls back to the plain
(non-uring) host syscall path (the same path taken with TcpBuffIO
disabled) whose result is returned; every other negative io_uring result
is returned verbatim as `SysError(-result)` with no retry; a non-negative
io_uring result is returned directly (for `ReadAt`, after a successful
copy-out to the caller's iovecs). -/
theorem C7_uring_error_policy (uringRet : Int) (copyOk : Bool)
    (fallback : Except FileIoErr Int) :
    ((uringRet < 0 ∧ uringRet ≠ -EINVAL) →
      hostFileReadAtRegular true uringRet copyOk fallback =
        .error (.sysError (-uringRet)) ∧
      hostFileWriteAtRegular true uringRet fallback =
        .error (.sysError (-uringRet))) ∧
    (uringRet = -EINVAL →
      hostFileReadAtRegular true uringRet copyOk fallback =
        hostFileReadAtRegular false uringRet copyOk fallback ∧
      hostFileWriteAtRegular true uringRet fallback =
        hostFileWriteAtRegular false uringRet fallback) ∧
    (0 ≤ uringRet → copyOk = true →
      hostFileReadAtRegular true uringRet copyOk fallback = .ok uringRet ∧
      hostFileWriteAtRegular true uringRet fallback = .ok uringRet) := by
  refine ⟨?_, ?_, ?_⟩
  · rintro ⟨hneg, hne⟩
    constructor
    · unfold hostFileReadAtRegular
      simp [if_pos hneg, hne]
    · unfold hostFileWriteAtRegular
      simp [if_pos hneg, hne]
  · intro heq
    subst heq
    constructor
    · unfold hostFileReadAtRegular
      norm_num [EINVAL]
    · unfold hostFileWriteAtRegular
      norm_num [EINVAL]
  · intro hpos hcopy
    have hneg : ¬ uringRet < 0 := by omega
    constructor
    · unfold hostFileReadAtRegular
      simp [hneg, hcopy]
    · unfold hostFileWriteAtRegular
      simp [hneg]

/-- Witness for C7: a concrete `-5` error is surfaced verbatim, a
concrete `-EINVAL` uses the fallback result, and a concrete success is
returned directly. -/
theorem C7_uring_error_policy_witness :
    hostFileReadAtRegular true (-5) true (.ok 7) = .error (.sysError 5) ∧
    hostFileWriteAtRegular true (-22) (.ok 7) = .ok 7 ∧
    hostFileReadAtRegular true 9 true (.ok 7) = .ok 9 := by
  have h1 := C7_uring_error_policy (-5) true (.ok 7)
  have h2 := C7_uring_error_policy (-22) true (.ok 7)
  have h3 := C7_uring_error_policy 9 true (.ok 7)
  refine ⟨?_, ?_, ?_⟩
  · have := (h1.1 ⟨by decide, by decide⟩).1
    simpa using this
  · have := (h2.2.1 (by decide)).2
    simpa [hostFileWriteAtRegular] using this
  · exact (h3.2.2 (by decide) rfl).1

/-- With fuel at least `n`, `clog2Fuel` computes `Nat.clog 2 n`. -/
theorem clog2Fuel_eq (fuel : Nat) : ∀ n : Nat, n ≤ fuel → clog2Fuel fuel n = Nat.clog 2 n := by
  induction fuel with
  | zero =>
    intro n h
    interval_cases n
    simp [clog2Fuel]
  | succ f ih =>
    intro n h
    by_cases h1 : n ≤ 1
    · rw [clog2Fuel, if_pos h1, Nat.clog_of_right_le_one h1]
    · have h2 : 2 ≤ n := by omega
      have hr : Nat.clog 2 n = Nat.clog 2 ((n + 1) / 2) + 1 := by
        rw [Nat.clog_of_two_le (by norm_num) h2]
        norm_num
      rw [clog2Fuel, if_neg h1, ih ((n + 1) / 2) (by omega), hr]

/-- `npow2` agrees with `2 ^ Nat.clog 2`. -/
theorem npow2_eq (n : Nat) : npow2 n = 2 ^ Nat.clog 2 n := by
  unfold npow2
  rw [clog2Fuel_eq n n le_rfl]

/-- With fuel at least `n`, `log2Fuel` computes `Nat.log 2 n`. -/
theorem log2Fuel_eq (fuel : Nat) : ∀ n : Nat, n ≤ fuel → log2Fuel fuel n = Nat.log 2 n := by
  induction fuel with
  | zero =>
    intro n h
    interval_cases n
    simp [log2Fuel]
  | succ f ih =>
    intro n h
    by_cases h1 : n < 2
    · rw [log2Fuel, if_pos h1, Nat.log_of_lt h1]
    · have hr : Nat.log 2 n = Nat.log 2 (n / 2) + 1 :=
        Nat.log_of_one_lt_of_le (by norm_num) (by omega)
      rw [log2Fuel, if_neg h1, ih (n / 2) (by omega), hr]

/-- `sizeClass` agrees with the base-2 logarithm. -/
theorem sizeClass_eq (n : Nat) : sizeClass n = Nat.log 2 n := by
  unfold sizeClass
  rw [log2Fuel_eq n n le_rfl]

set_option maxRecDepth 20000

/-- Claim C1, evaluation at the failing input: a user-mode page-absent
fault (`errorCode = USER_MODE`, no `PROTECTION_VIOLATION`) at the first
page of a readable, upward-growing 8-page VMA `[0x10000, 0x18000)`, with
every install succeeding.  `PageFaultHandler` passes `pageAddr` — not the
computed neighbour address — to `InstallPageLocked` in the speculative
loop (interrupt/mod.rs line 546), so it installs the faulting page
`0x10000` eight times; the spec instead claims the seven neighbouring
pages `0x11000 … 0x17000` are pre-installed.  The first neighbour
`0x11000` is inside the VMA range yet never installed. -/
theorem C1_preinstall_evaluation :
    pageFaultHandlerUser
      (some (⟨false, false, true, true, true⟩, ⟨65536, 32768⟩)) 4 65536
      (fun _ => .ok)
      = .resume (List.replicate 8 65536) ∧
    specClaimedInstalls ⟨65536, 32768⟩ false 65536 =
      [65536, 69632, 73728, 77824, 81920, 86016, 90112, 94208] ∧
    (VmaRange.contains ⟨65536, 32768⟩ 69632 ∧
      69632 ∉ (List.replicate 8 65536 : List Nat)) := by
  decide

/-- Claim C2, evaluation at the failing input: allocate 64 bytes from the
buddy heap, free the block (parking it in tier-2 class 6), and allocate
the same class again.  The second allocation is served from the tier-2
cache and leaves `free` unchanged (list_allocator.rs lines 164-170 only
decrement `bufSize` on a cache hit), so at quiescence with one
outstanding 64-byte allocation, `free + allocated = total + 64 ≠ total`. -/
theorem C2_tier2_accounting_evaluation :
    c2Alloc1.isSome = true ∧
    c2Ptr1 = 1048576 ∧
    c2State1.free = 1048576 - 64 ∧
    (qdealloc c2State1 c2Ptr1 64 8).isSome = true ∧
    c2State2.free = 1048576 ∧
    c2State2.bufSize = 64 ∧
    (c2State2.bufs 6).count = 1 ∧
    c2Alloc3.isSome = true ∧
    c2State3.free = c2State2.free ∧
    c2State3.bufSize = 0 ∧
    c2State3.free + 64 ≠ c2State3.total := by
  decide

/-- Removing a key that does not occur leaves the map unchanged. -/
theorem mapRemove_eq_self (k : Nat) (m : List (Nat × Nat))
    (h : ∀ p ∈ m, p.1 ≠ k) : mapRemove k m = m := by
  induction m with
  | nil => rfl
  | cons p rest ih =>
    have hp : p.1 ≠ k := h p (List.mem_cons_self p rest)
    unfold mapRemove at *
    rw [List.filter_cons, if_pos (by simpa using hp),
      ih (fun q hq => h q (List.mem_cons_of_mem p hq))]

/-- Removing a key after inserting it removes exactly the insertion. -/
theorem mapRemove_mapInsert (k v : Nat) (m : List (Nat × Nat)) :
    mapRemove k (mapInsert k v m) = mapRemove k m := by
  unfold mapInsert mapRemove
  rw [List.filter_cons]
  simp [List.filter_filter]

/-- Rolling back one `AssignTids` insertion restores the `tasks` and
`tids` maps when the inserted tid and thread were fresh. -/
theorem rollbackOne_assignStep (ns : PidNs) (tid t tg : Nat) (ln : Bool)
    (h1 : ∀ p ∈ ns.tasks, p.1 ≠ tid) (h2 : ∀ p ∈ ns.tids, p.1 ≠ t) :
    (rollbackOne (assignStep ns tid t tg ln) tid t).tasks = ns.tasks ∧
    (rollbackOne (assignStep ns tid t tg ln) tid t).tids = ns.tids := by
  unfold rollbackOne assignStep
  constructor
  · simp only
    rw [mapRemove_mapInsert, mapRemove_eq_self tid ns.tasks h1]
  · simp only
    rw [mapRemove_mapInsert, mapRemove_eq_self t ns.tids h2]

/-- Unfolding of the `AssignTids` loop on a failing run: with `pre` the
namespaces whose allocations succeed and a failure in the next namespace,
the loop returns failure, the rolled-back processed namespaces, the
failing namespace (with the thread group removed from its tgids when the
leader was unset and at least one namespace had been processed), and the
untouched remainder. -/
theorem assignLoop_fail (t tg : Nat) (ln : Bool) (nsF : PidNs) (post : List PidNs)
    (ra : List (Option Nat)) :
    ∀ (pre : List PidNs) (oks : List Nat) (processed : List (PidNs × Nat)),
      pre.length = oks.length →
      assignLoop t tg ln (pre ++ nsF :: post) (oks.map some ++ none :: ra) processed
        = (false,
           (processed ++ (pre.zip oks).map
               (fun q => (assignStep q.1 q.2 t tg ln, q.2))).map
               (fun q => rollbackOne q.1 q.2 t)
             ++ (if ln ∧ 0 < processed.length + pre.length then
                  { nsF with tgids := mapRemove tg nsF.tgids } else nsF) :: post) := by
  intro pre
  induction pre with
  | nil =>
    intro oks processed hlen
    have hoks : oks = [] := by
      cases oks with
      | nil => rfl
      | cons a l => simp at hlen
    subst hoks
    simp [assignLoop]
  | cons ns pre ih =>
    intro oks processed hlen
    cases oks with
    | nil => simp at hlen
    | cons tid oks =>
      have hlen2 : pre.length = oks.length := by
        simpa using hlen
      simp only [List.cons_append, List.map_cons]
      have step : assignLoop t tg ln (ns :: (pre ++ nsF :: post))
          (some tid :: (oks.map some ++ none :: ra)) processed
          = assignLoop t tg ln (pre ++ nsF :: post) (oks.map some ++ none :: ra)
            (processed ++ [(assignStep ns tid t tg ln, tid)]) := rfl
      rw [step, ih oks (processed ++ [(assignStep ns tid t tg ln, tid)]) hlen2]
      simp only [List.zip_cons_cons, List.map_cons, List.append_assoc,
        List.singleton_append, List.length_append, List.length_cons,
        List.length_nil]
      rw [show processed.length + (0 + 1) + pre.length
          = processed.length + (pre.length + 1) from by omega]

/-- Rolling back all processed insertions of a failing `AssignTids` run
restores every namespace's `tasks` and `tids` maps (fresh tids/thread). -/
theorem rollback_zip_restores (t tg : Nat) (ln : Bool) :
    ∀ (pre : List PidNs) (oks : List Nat), pre.length = oks.length →
      (∀ q ∈ pre.zip oks,
        (∀ p ∈ q.1.tasks, p.1 ≠ q.2) ∧ (∀ p ∈ q.1.tids, p.1 ≠ t)) →
      (((pre.zip oks).map (fun q => (assignStep q.1 q.2 t tg ln, q.2))).map
          (fun q => rollbackOne q.1 q.2 t)).map PidNs.tasks = pre.map PidNs.tasks ∧
      (((pre.zip oks).map (fun q => (assignStep q.1 q.2 t tg ln, q.2))).map
          (fun q => rollbackOne q.1 q.2 t)).map PidNs.tids = pre.map PidNs.tids := by
  intro pre
  induction pre with
  | nil =>
    intro oks _ _
    simp
  | cons ns pre ih =>
    intro oks hlen hfresh
    cases oks with
    | nil => simp at hlen
    | cons tid oks =>
      have hq := hfresh (ns, tid) (by simp)
      have ihq := ih oks (by simpa using hlen)
        (fun q hq2 => hfresh q (List.mem_cons_of_mem _ hq2))
      have hstep := rollbackOne_assignStep ns tid t tg ln hq.1 hq.2
      simp only [List.zip_cons_cons, List.map_cons]
      rw [hstep.1, hstep.2, ihq.1, ihq.2]
      exact ⟨rfl, rfl⟩

/-- Claim C10: when `AssignTids` fails to allocate a tid in some ancestor
PID namespace, it removes every tid→thread and thread→tid entry it had
inserted for the thread in the earlier namespaces, so the `tasks` and
`tids` maps of every namespace in the chain are unchanged by the failed
call.  `pre` are the namespaces whose `AllocateTID` succeeded (with tids
`oks`, each fresh in its namespace, the thread `t` likewise absent); the
allocation in `nsF` fails. -/
theorem C10_assign_tids_rollback (pre : List PidNs) (oks : List Nat) (nsF : PidNs)
    (post : List PidNs) (ra : List (Option Nat)) (t tg : Nat) (ln : Bool)
    (hlen : pre.length = oks.length)
    (hfresh : ∀ q ∈ pre.zip oks,
      (∀ p ∈ q.1.tasks, p.1 ≠ q.2) ∧ (∀ p ∈ q.1.tids, p.1 ≠ t)) :
    (assignTids (pre ++ nsF :: post) (oks.map some ++ none :: ra) t tg ln).1 = false ∧
    (assignTids (pre ++ nsF :: post) (oks.map some ++ none :: ra) t tg ln).2.map
        PidNs.tasks = (pre ++ nsF :: post).map PidNs.tasks ∧
    (assignTids (pre ++ nsF :: post) (oks.map some ++ none :: ra) t tg ln).2.map
        PidNs.tids = (pre ++ nsF :: post).map PidNs.tids := by
  unfold assignTids
  rw [assignLoop_fail t tg ln nsF post ra pre oks [] hlen]
  have hres := rollback_zip_restores t tg ln pre oks hlen hfresh
  have hcond : (if ln ∧ 0 < List.length ([] : List (PidNs × Nat)) + pre.length then
      { nsF with tgids := mapRemove tg nsF.tgids } else nsF).tasks = nsF.tasks := by
    split <;> rfl
  have hcond2 : (if ln ∧ 0 < List.length ([] : List (PidNs × Nat)) + pre.length then
      { nsF with tgids := mapRemove tg nsF.tgids } else nsF).tids = nsF.tids := by
    split <;> rfl
  refine ⟨rfl, ?_, ?_⟩
  · simp only [List.nil_append, List.map_append, List.map_cons]
    rw [hres.1, hcond]
  · simp only [List.nil_append, List.map_append, List.map_cons]
    rw [hres.2, hcond2]

/-- Witness for C10: a concrete two-namespace chain where the second
allocation fails leaves both namespaces' `tasks` and `tids` maps intact. -/
theorem C10_assign_tids_rollback_witness :
    (assignTids [⟨[(1, 50)], [(50, 1)], [(60, 1)]⟩, ⟨[], [], [(200, 9)]⟩]
        [some 7, none] 100 200 true).1 = false ∧
    (assignTids [⟨[(1, 50)], [(50, 1)], [(60, 1)]⟩, ⟨[], [], [(200, 9)]⟩]
        [some 7, none] 100 200 true).2.map PidNs.tasks = [[(1, 50)], []] ∧
    (assignTids [⟨[(1, 50)], [(50, 1)], [(60, 1)]⟩, ⟨[], [], [(200, 9)]⟩]
        [some 7, none] 100 200 true).2.map PidNs.tids = [[(50, 1)], []] := by
  have h := C10_assign_tids_rollback [⟨[(1, 50)], [(50, 1)], [(60, 1)]⟩] [7]
    ⟨[], [], [(200, 9)]⟩ [] [] 100 200 true (by decide) (by decide)
  exact ⟨h.1, h.2.1, h.2.2⟩

/-- `npow2` is monotone. -/
theorem npow2_mono (n m : Nat) (h : n ≤ m) : npow2 n ≤ npow2 m := by
  rw [npow2_eq, npow2_eq]
  exact Nat.pow_le_pow_right (by norm_num) (Nat.clog_mono_right 2 h)

/-- `npow2` fixes powers of two. -/
theorem npow2_pow (j : Nat) : npow2 (2 ^ j) = 2 ^ j := by
  rw [npow2_eq, Nat.clog_pow 2 j (by norm_num)]

/-- The request is at most its rounded size. -/
theorem le_npow2 (n : Nat) : n ≤ npow2 n := by
  rw [npow2_eq]
  exact Nat.le_pow_clog (by norm_num) n

/-- Powers of two commute with `max` in the exponent. -/
theorem pow_max_eq (a b : Nat) : (2 : Nat) ^ max a b = max (2 ^ a) (2 ^ b) :=
  Monotone.map_max (fun _ _ h => Nat.pow_le_pow_right (by norm_num) h)

/-- `sizeClass` inverts powers of two. -/
theorem pow_sizeClass (c : Nat) : 2 ^ sizeClass (2 ^ c) = 2 ^ c := by
  rw [sizeClass_eq, Nat.log_pow (by norm_num)]

/-- For a power-of-two alignment, the source's rounded size
`max(next_pow2(s), max(a, 8))` equals the spec's formula
`next_pow2(max(s, a, word_size))`. -/
theorem allocSize_spec_formula (s k : Nat) :
    allocSize s (2 ^ k) = npow2 (max s (max (2 ^ k) 8)) := by
  unfold allocSize
  have h8 : (8 : Nat) = 2 ^ 3 := by norm_num
  have hmax : max (2 ^ k) 8 = 2 ^ max k 3 := by
    rw [h8, pow_max_eq]
  rw [hmax, Monotone.map_max (fun x y h => npow2_mono x y h), npow2_pow]

/-- The rounded size of a power-of-two-aligned request is itself a power
of two. -/
theorem allocSize_isPow (s k : Nat) : ∃ c, allocSize s (2 ^ k) = 2 ^ c := by
  unfold allocSize
  have h8 : (8 : Nat) = 2 ^ 3 := by norm_num
  have hmax : max (2 ^ k) 8 = 2 ^ max k 3 := by
    rw [h8, pow_max_eq]
  refine ⟨max (clog2Fuel s s) (max k 3), ?_⟩
  rw [hmax, pow_max_eq (clog2Fuel s s) (max k 3)]
  rfl

/-- The requested alignment divides the rounded size. -/
theorem align_dvd_allocSize (s k : Nat) : 2 ^ k ∣ allocSize s (2 ^ k) := by
  obtain ⟨c, hc⟩ := allocSize_isPow s k
  have hle : 2 ^ k ≤ allocSize s (2 ^ k) := by
    unfold allocSize
    exact le_trans (le_max_left _ 8) (le_max_right _ _)
  rw [hc] at hle ⊢
  exact pow_dvd_pow 2 ((Nat.pow_le_pow_iff_right (by norm_num)).mp hle)

/-- The rounded size equals two to its own size class. -/
theorem pow_sizeClass_allocSize (s k : Nat) :
    2 ^ sizeClass (allocSize s (2 ^ k)) = allocSize s (2 ^ k) := by
  obtain ⟨c, hc⟩ := allocSize_isPow s k
  rw [hc, pow_sizeClass]

/-- A buddy split step preserves the alignment invariant. -/
theorem splitStep_aligned (fl : Nat → List Nat) (j : Nat) (hj : 1 ≤ j)
    (hb : BuddyAligned fl) (fl1 : Nat → List Nat)
    (h : splitStep fl j = some fl1) : BuddyAligned fl1 := by
  unfold splitStep at h
  cases hfl : fl j with
  | nil =>
    rw [hfl] at h
    simp at h
  | cons b rest =>
    rw [hfl] at h
    simp only [Option.some.injEq] at h
    subst h
    have hbj : 2 ^ j ∣ b := hb j b (by rw [hfl]; exact List.mem_cons_self b rest)
    have hbj1 : 2 ^ (j - 1) ∣ b := dvd_trans (pow_dvd_pow 2 (by omega)) hbj
    have hne : j - 1 ≠ j := by omega
    intro k x hx
    simp only [flUpd] at hx
    by_cases hk1 : k = j - 1
    · rw [if_pos hk1, if_neg hne] at hx
      simp only [List.mem_cons] at hx
      rw [hk1]
      rcases hx with rfl | rfl | h1
      · exact hbj1
      · exact dvd_add hbj1 dvd_rfl
      · exact hb (j - 1) x h1
    · rw [if_neg hk1] at hx
      by_cases hk2 : k = j
      · rw [if_pos hk2] at hx
        have hmem : x ∈ fl j := by
          rw [hfl]
          exact List.mem_cons_of_mem b hx
        rw [hk2]
        exact hb j x hmem
      · rw [if_neg hk2] at hx
        exact hb k x hx

/-- The buddy split loop preserves the alignment invariant. -/
theorem splitDown_aligned (cls : Nat) :
    ∀ (n : Nat) (fl fl1 : Nat → List Nat), BuddyAligned fl →
      splitDown fl cls n = some fl1 → BuddyAligned fl1 := by
  intro n
  induction n with
  | zero =>
    intro fl fl1 hb h
    unfold splitDown at h
    simp only [Option.some.injEq] at h
    subst h
    exact hb
  | succ m ih =>
    intro fl fl1 hb h
    unfold splitDown at h
    cases hs : splitStep fl (cls + m + 1) with
    | none =>
      rw [hs] at h
      simp at h
    | some fl2 =>
      rw [hs] at h
      exact ih fl2 fl1 (splitStep_aligned fl (cls + m + 1) (by omega) hb fl2 hs) h

/-- A successful buddy allocation returns a block aligned to its size
class and preserves the alignment invariant. -/
theorem buddyAlloc_aligned (fl : Nat → List Nat) (s a : Nat) (hb : BuddyAligned fl)
    (p : Nat) (fl1 : Nat → List Nat) (h : buddyAlloc fl s a = some (p, fl1)) :
    2 ^ sizeClass (allocSize s a) ∣ p ∧ BuddyAligned fl1 := by
  unfold buddyAlloc at h
  simp only [] at h
  split at h
  · exact absurd h (by simp)
  · split at h
    · exact absurd h (by simp)
    · rename_i fl2 hs
      have hb2 := splitDown_aligned (sizeClass (allocSize s a)) _ fl fl2 hb hs
      split at h
      · exact absurd h (by simp)
      · rename_i q rest hl
        simp only [Option.some.injEq, Prod.mk.injEq] at h
        obtain ⟨rfl, rfl⟩ := h
        constructor
        · exact hb2 _ _ (by rw [hl]; exact List.mem_cons_self _ _)
        · intro k x hx
          simp only [flUpd] at hx
          by_cases hk : k = sizeClass (allocSize s a)
          · rw [if_pos hk] at hx
            have hmem : x ∈ fl2 (sizeClass (allocSize s a)) := by
              rw [hl]
              exact List.mem_cons_of_mem q hx
            rw [hk]
            exact hb2 _ x hmem
          · rw [if_neg hk] at hx
            exact hb2 k x hx

/-- A successful tier-2 class allocation returns a block from the class
list (hence class-aligned) and keeps the count/list in sync. -/
theorem mgrAlloc_aligned (m : MemBlockMgr) (c : Nat)
    (hl : ∀ x ∈ m.list, 2 ^ c ∣ x) (hc : m.count = m.list.length)
    (ret : Nat) (m1 : MemBlockMgr) (h : m.alloc = some (ret, m1)) :
    2 ^ c ∣ ret ∧ (∀ x ∈ m1.list, 2 ^ c ∣ x) ∧ m1.count = m1.list.length := by
  unfold MemBlockMgr.alloc at h
  by_cases hcount : 0 < m.count
  · rw [if_pos hcount] at h
    cases hml : m.list with
    | nil =>
      rw [hml] at hc
      simp at hc
      omega
    | cons a rest =>
      rw [hml] at h
      simp only [memListPop, Option.some.injEq, Prod.mk.injEq] at h
      obtain ⟨rfl, rfl⟩ := h
      refine ⟨hl _ (by rw [hml]; exact List.mem_cons_self _ _), ?_, ?_⟩
      · intro x hx
        exact hl x (by rw [hml]; exact List.mem_cons_of_mem a hx)
      · simp only
        rw [hc, hml]
        simp
  · rw [if_neg hcount] at h
    simp at h

/-- A successful tier-2 class dealloc (whose `Push` alignment assertion
did not fire) keeps every parked block class-aligned and the count/list
in sync. -/
theorem mgrDealloc_aligned (m : MemBlockMgr) (c q : Nat)
    (hl : ∀ x ∈ m.list, 2 ^ c ∣ x) (hc : m.count = m.list.length)
    (m1 : MemBlockMgr) (h : m.dealloc (2 ^ c) q = some m1) :
    (∀ x ∈ m1.list, 2 ^ c ∣ x) ∧ m1.count = m1.list.length := by
  unfold MemBlockMgr.dealloc memListPush at h
  by_cases hq : q % 2 ^ c = 0
  · rw [if_pos hq] at h
    simp only [Option.some.injEq] at h
    subst h
    constructor
    · intro x hx
      rcases List.mem_append.mp hx with h1 | h1
      · exact hl x h1
      · have hxq : x = q := by simpa using h1
        subst hxq
        exact (Nat.dvd_iff_mod_eq_zero).mpr hq
    · simp only [List.length_append, List.length_singleton]
      omega
  · rw [if_neg hq] at h
    simp at h

/-- Updating one tier-2 class with an aligned, count-consistent manager
preserves the tier-2 invariant. -/
theorem tier2Good_update (bufs : Nat → MemBlockMgr) (cls : Nat) (m1 : MemBlockMgr)
    (ht : Tier2Good bufs)
    (hm : (∀ x ∈ m1.list, 2 ^ cls ∣ x) ∧ m1.count = m1.list.length) :
    Tier2Good (fun i => if i = cls then m1 else bufs i) := by
  intro c
  by_cases hcc : c = cls
  · subst hcc
    simp only [if_pos rfl]
    exact hm
  · simp only [if_neg hcc]
    exact ht c

/-- Claim C8: for an allocation request of size `s` and power-of-two
alignment `a = 2^k`, the internally used size class is
`next_pow2(max(s, a, word_size))`; a successful `alloc` returns a pointer
`p` with `p % a == 0` (whether served by the tier-2 cache or the buddy
heap) and preserves the alignment invariants; and blocks stored in a
tier-2 class list are always aligned to the class block size (`dealloc`
preserves the tier-2 alignment invariant). -/
theorem C8_alloc_alignment (st : ListAllocatorSt) (s k : Nat)
    (hb : BuddyAligned st.heap) (ht : Tier2Good st.bufs) :
    allocSize s (2 ^ k) = npow2 (max s (max (2 ^ k) 8)) ∧
    (∀ p st1, qalloc st s (2 ^ k) = some (p, st1) →
      p % 2 ^ k = 0 ∧ BuddyAligned st1.heap ∧ Tier2Good st1.bufs) ∧
    (∀ q st1, qdealloc st q s (2 ^ k) = some st1 → Tier2Good st1.bufs) := by
  have hkc : (2 : Nat) ^ k ∣ 2 ^ sizeClass (allocSize s (2 ^ k)) := by
    rw [pow_sizeClass_allocSize]
    exact align_dvd_allocSize s k
  refine ⟨allocSize_spec_formula s k, ?_, ?_⟩
  · intro p st1 h
    unfold qalloc at h
    simp only [] at h
    split at h
    · -- 3 ≤ class < CLASS_CNT: the tier-2 cache is consulted first
      split at h
      · -- tier-2 hit
        rename_i ret mgr halloc
        have hmgr := mgrAlloc_aligned (st.bufs (sizeClass (allocSize s (2 ^ k))))
          (sizeClass (allocSize s (2 ^ k))) (ht _).1 (ht _).2 ret mgr halloc
        simp only [Option.some.injEq, Prod.mk.injEq] at h
        obtain ⟨rfl, rfl⟩ := h
        exact ⟨Nat.mod_eq_zero_of_dvd (dvd_trans hkc hmgr.1), hb,
          tier2Good_update st.bufs _ mgr ht ⟨hmgr.2.1, hmgr.2.2⟩⟩
      · -- tier-2 miss: buddy path
        split at h
        · exact absurd h (by simp)
        · rename_i q1 heap1 hbud
          have hba := buddyAlloc_aligned st.heap s (2 ^ k) hb q1 heap1 hbud
          simp only [Option.some.injEq, Prod.mk.injEq] at h
          obtain ⟨rfl, rfl⟩ := h
          exact ⟨Nat.mod_eq_zero_of_dvd (dvd_trans hkc hba.1), hba.2, ht⟩
    · -- class outside 3..15: buddy path directly
      split at h
      · exact absurd h (by simp)
      · rename_i q1 heap1 hbud
        have hba := buddyAlloc_aligned st.heap s (2 ^ k) hb q1 heap1 hbud
        simp only [Option.some.injEq, Prod.mk.injEq] at h
        obtain ⟨rfl, rfl⟩ := h
        exact ⟨Nat.mod_eq_zero_of_dvd (dvd_trans hkc hba.1), hba.2, ht⟩
  · intro q st1 h
    unfold qdealloc at h
    simp only [] at h
    split at h
    · -- address outside the arena: silently dropped
      simp only [Option.some.injEq] at h
      subst h
      exact ht
    · split at h
      · -- class < CLASS_CNT: parked in tier 2
        split at h
        · exact absurd h (by simp)
        · rename_i m1 hdeal
          have hsz : allocSize s (2 ^ k) = 2 ^ sizeClass (allocSize s (2 ^ k)) :=
            (pow_sizeClass_allocSize s k).symm
          nth_rewrite 2 [hsz] at hdeal
          have hmgr := mgrDealloc_aligned (st.bufs (sizeClass (allocSize s (2 ^ k))))
            (sizeClass (allocSize s (2 ^ k))) q (ht _).1 (ht _).2 m1 hdeal
          simp only [Option.some.injEq] at h
          subst h
          exact tier2Good_update st.bufs _ m1 ht hmgr
      · -- class ≥ CLASS_CNT: returned to the buddy heap, tier 2 untouched
        simp only [Option.some.injEq] at h
        subst h
        exact ht

/-- The trace state's buddy free lists satisfy the alignment invariant. -/
theorem c2State0_buddyAligned : BuddyAligned c2State0.heap := by
  intro k x hx
  simp only [c2State0] at hx
  by_cases hk : k = 20
  · subst hk
    have : x = 1048576 := by simpa using hx
    subst this
    decide
  · rw [if_neg hk] at hx
    simp at hx

/-- The trace state's (empty) tier-2 caches satisfy the invariant. -/
theorem c2State0_tier2Good : Tier2Good c2State0.bufs := by
  intro c
  exact ⟨by intro x hx; simp [c2State0] at hx, rfl⟩

/-- Witness for C8: a concrete 5-byte, 8-byte-aligned request on the trace
state rounds to the spec's size class and returns an 8-byte-aligned
pointer. -/
theorem C8_alloc_alignment_witness :
    allocSize 5 (2 ^ 3) = npow2 (max 5 (max (2 ^ 3) 8)) ∧
    ((qalloc c2State0 5 (2 ^ 3)).map Prod.fst).getD 1 % 2 ^ 3 = 0 := by
  have h := C8_alloc_alignment c2State0 5 3 c2State0_buddyAligned c2State0_tier2Good
  refine ⟨h.1, ?_⟩
  cases hq : qalloc c2State0 5 (2 ^ 3) with
  | none =>
    have hs : (qalloc c2State0 5 (2 ^ 3)).isSome = true := by decide
    rw [hq] at hs
    simp at hs
  | some pr =>
    have h2 := h.2.1 pr.1 pr.2 (by rw [hq])
    simpa using h2.1

/-- Chained wrapping subtractions combine. -/
theorem sub64_sub64 (b x y : Nat) : sub64 (sub64 b x) y = sub64 b (x + y) := by
  have hw : W64 = 18446744073709551616 := by norm_num [W64]
  simp only [sub64, hw]
  omega

/-- Wrapping subtraction of zero is the identity on in-range values. -/
theorem sub64_zero (b : Nat) (h : b < W64) : sub64 b 0 = b := by
  have hw : W64 = 18446744073709551616 := by norm_num [W64]
  simp only [sub64, hw] at *
  omega

/-- The result of a wrapping subtraction is in range. -/
theorem sub64_lt (b x : Nat) : sub64 b x < W64 := by
  have hw : 0 < W64 := by norm_num [W64]
  exact Nat.mod_lt _ hw

/-- `FreeMemBlockMgr::FreeMultiple` frees at most the requested number of
blocks, decrements the class count by exactly the number freed, and never
takes the count below the reserve (or below its initial value when that
is already at or under the reserve). -/
theorem freeMultiple_spec (size resv : Nat) :
    ∀ (n : Nat) (m : MemBlockMgr) (fl : Nat → List Nat),
      (freeMultiple m size resv fl n).2.2 ≤ n ∧
      (freeMultiple m size resv fl n).1.count + (freeMultiple m size resv fl n).2.2
        = m.count ∧
      min m.count resv ≤ (freeMultiple m size resv fl n).1.count := by
  intro n
  induction n with
  | zero =>
    intro m fl
    simp only [freeMultiple]
    omega
  | succ n ih =>
    intro m fl
    unfold freeMultiple
    by_cases hcr : m.count ≤ resv
    · rw [if_pos hcr]
      simp only
      omega
    · rw [if_neg hcr]
      simp only []
      have h := ih { count := m.count - 1, list := (memListPop m.list).2 }
        (buddyDealloc fl (memListPop m.list).1 size size)
      simp only at h
      omega

/-- Pointwise-monotone count differences telescope over the classes. -/
theorem sum_sub_split (A B C : Nat → Nat) (hBA : ∀ c, B c ≤ A c) (hCB : ∀ c, C c ≤ B c) :
    ∑ c ∈ Finset.range CLASS_CNT, (A c - C c)
      = ∑ c ∈ Finset.range CLASS_CNT, (A c - B c)
        + ∑ c ∈ Finset.range CLASS_CNT, (B c - C c) := by
  rw [← Finset.sum_add_distrib]
  apply Finset.sum_congr rfl
  intro c _
  have h1 := hBA c
  have h2 := hCB c
  omega

/-- Weighted version of `sum_sub_split` (weights `2^c`, the class block
sizes). -/
theorem sum_sub_split_w (A B C : Nat → Nat) (hBA : ∀ c, B c ≤ A c)
    (hCB : ∀ c, C c ≤ B c) :
    ∑ c ∈ Finset.range CLASS_CNT, (A c - C c) * 2 ^ c
      = ∑ c ∈ Finset.range CLASS_CNT, (A c - B c) * 2 ^ c
        + ∑ c ∈ Finset.range CLASS_CNT, (B c - C c) * 2 ^ c := by
  rw [← Finset.sum_add_distrib]
  apply Finset.sum_congr rfl
  intro c _
  have h1 := hBA c
  have h2 := hCB c
  have h3 : A c - C c = (A c - B c) + (B c - C c) := by omega
  rw [h3, Nat.add_mul]

/-- A change to a single class contributes only its own difference. -/
theorem sum_update_single (g : Nat → Nat) (f v : Nat) (hf : f < CLASS_CNT) :
    ∑ c ∈ Finset.range CLASS_CNT, (g c - (if c = f then v else g c)) = g f - v := by
  rw [Finset.sum_eq_single_of_mem f (Finset.mem_range.mpr hf)]
  · rw [if_pos rfl]
  · intro b _ hb
    rw [if_neg hb]
    omega

/-- Weighted version of `sum_update_single`. -/
theorem sum_update_single_w (g : Nat → Nat) (f v : Nat) (hf : f < CLASS_CNT) :
    ∑ c ∈ Finset.range CLASS_CNT, (g c - (if c = f then v else g c)) * 2 ^ c
      = (g f - v) * 2 ^ f := by
  rw [Finset.sum_eq_single_of_mem f (Finset.mem_range.mpr hf)]
  · rw [if_pos rfl]
  · intro b _ hb
    rw [if_neg hb, Nat.sub_self, Nat.zero_mul]


/-- Projection of one continuing drain-loop iteration: final state. -/
theorem drainLoop_step_fst (st : ListAllocatorSt) (count f : Nat)
    (h : ¬ (¬ needFree st ∨ count = FREE_BATCH)) :
    (drainLoop st count (f + 1)).1
      = (drainLoop (stepState st count f) (count + (stepFM st count f).2.2) f).1 := by
  conv_lhs => rw [drainLoop]
  rw [if_neg h]
  rfl

/-- Projection of one continuing drain-loop iteration: blocks freed. -/
theorem drainLoop_step_cnt (st : ListAllocatorSt) (count f : Nat)
    (h : ¬ (¬ needFree st ∨ count = FREE_BATCH)) :
    (drainLoop st count (f + 1)).2.1
      = (drainLoop (stepState st count f) (count + (stepFM st count f).2.2) f).2.1 := by
  conv_lhs => rw [drainLoop]
  rw [if_neg h]
  rfl

/-- Projection of one continuing drain-loop iteration: visit trace. -/
theorem drainLoop_step_trace (st : ListAllocatorSt) (count f : Nat)
    (h : ¬ (¬ needFree st ∨ count = FREE_BATCH)) :
    (drainLoop st count (f + 1)).2.2
      = f :: (drainLoop (stepState st count f) (count + (stepFM st count f).2.2) f).2.2 := by
  conv_lhs => rw [drainLoop]
  rw [if_neg h]
  rfl

set_option maxHeartbeats 4000000

/-- Behaviour of a drain pass (`ListAllocator::Free` loop): it leaves
`free` and `total` untouched, frees at most `FREE_BATCH` blocks in all,
never takes a class below its reserve (nor below its initial count),
frees exactly the per-class count differences, decrements `bufSize` by
the bytes returned, and visits classes in descending order. -/
theorem drainLoop_spec :
    ∀ fuel : Nat, fuel ≤ CLASS_CNT →
    ∀ (st : ListAllocatorSt) (count : Nat), count ≤ FREE_BATCH → st.bufSize < W64 →
      (drainLoop st count fuel).1.free = st.free ∧
      (drainLoop st count fuel).1.total = st.total ∧
      (drainLoop st count fuel).2.1 ≤ FREE_BATCH ∧
      (∀ c, ((drainLoop st count fuel).1.bufs c).count ≤ (st.bufs c).count ∧
        min ((st.bufs c).count) (classReserve c)
          ≤ ((drainLoop st count fuel).1.bufs c).count) ∧
      (drainLoop st count fuel).2.1
        = count + ∑ c ∈ Finset.range CLASS_CNT,
            ((st.bufs c).count - ((drainLoop st count fuel).1.bufs c).count) ∧
      (drainLoop st count fuel).1.bufSize
        = sub64 st.bufSize (∑ c ∈ Finset.range CLASS_CNT,
            ((st.bufs c).count - ((drainLoop st count fuel).1.bufs c).count) * 2 ^ c) ∧
      (drainLoop st count fuel).1.bufSize < W64 ∧
      (∀ j, j < (drainLoop st count fuel).2.2.length →
        (drainLoop st count fuel).2.2.getD j 0 = fuel - 1 - j) := by
  intro fuel
  induction fuel with
  | zero =>
    intro _ st count hcount hbs
    refine ⟨rfl, rfl, hcount, fun c => ⟨le_refl _, Nat.min_le_left _ _⟩, ?_, ?_, hbs, ?_⟩
    · show count = count + ∑ c ∈ Finset.range CLASS_CNT,
        ((st.bufs c).count - (st.bufs c).count)
      rw [Finset.sum_eq_zero (fun c _ => Nat.sub_self _), Nat.add_zero]
    · show st.bufSize = sub64 st.bufSize (∑ c ∈ Finset.range CLASS_CNT,
        ((st.bufs c).count - (st.bufs c).count) * 2 ^ c)
      rw [Finset.sum_eq_zero (fun c _ => by rw [Nat.sub_self, Nat.zero_mul]),
        sub64_zero st.bufSize hbs]
    · intro j hj
      simp [drainLoop] at hj
  | succ f ih =>
    intro hfuel st count hcount hbs
    have h10 : FREE_BATCH = 10 := rfl
    have h16 : CLASS_CNT = 16 := rfl
    by_cases hstop : ¬ needFree st ∨ count = FREE_BATCH
    · have hr : drainLoop st count (f + 1) = (st, count, []) := by
        rw [drainLoop, if_pos hstop]
      rw [hr]
      refine ⟨rfl, rfl, hcount, fun c => ⟨le_refl _, Nat.min_le_left _ _⟩, ?_, ?_, hbs, ?_⟩
      · show count = count + ∑ c ∈ Finset.range CLASS_CNT,
          ((st.bufs c).count - (st.bufs c).count)
        rw [Finset.sum_eq_zero (fun c _ => Nat.sub_self _), Nat.add_zero]
      · show st.bufSize = sub64 st.bufSize (∑ c ∈ Finset.range CLASS_CNT,
          ((st.bufs c).count - (st.bufs c).count) * 2 ^ c)
        rw [Finset.sum_eq_zero (fun c _ => by rw [Nat.sub_self, Nat.zero_mul]),
          sub64_zero st.bufSize hbs]
      · intro j hj
        simp at hj
    · have hFM := freeMultiple_spec (2 ^ f) (classReserve f) (FREE_BATCH - count)
        (st.bufs f) st.heap
      have hFM1 : (stepFM st count f).2.2 ≤ FREE_BATCH - count := hFM.1
      have hFM2 : (stepFM st count f).1.count + (stepFM st count f).2.2
          = (st.bufs f).count := hFM.2.1
      have hFM3 : min ((st.bufs f).count) (classReserve f)
          ≤ (stepFM st count f).1.count := hFM.2.2
      have hcnt10 : count < FREE_BATCH := by
        rcases Nat.lt_or_ge count FREE_BATCH with h | h
        · exact h
        · exact absurd (Or.inr (by omega)) hstop
      have hf16 : f < CLASS_CNT := by omega
      have hSfree : (stepState st count f).free = st.free := rfl
      have hStot : (stepState st count f).total = st.total := rfl
      have hSbs : (stepState st count f).bufSize
          = sub64 st.bufSize ((stepFM st count f).2.2 * 2 ^ f) := rfl
      have hSbufs : ∀ c, ((stepState st count f).bufs c).count
          = if c = f then (stepFM st count f).1.count else (st.bufs c).count := by
        intro c
        by_cases hc : c = f
        · simp [stepState, hc]
        · simp [stepState, hc]
      have hIH := ih (by omega) (stepState st count f) (count + (stepFM st count f).2.2)
        (by omega) (by rw [hSbs]; exact sub64_lt _ _)
      obtain ⟨ih1, ih2, ih3, ih4, ih5, ih6, ih7, ih8⟩ := hIH
      have hle1 : ∀ c, ((stepState st count f).bufs c).count ≤ (st.bufs c).count := by
        intro c
        rw [hSbufs c]
        by_cases hc : c = f
        · rw [if_pos hc, hc]
          omega
        · rw [if_neg hc]
      have hle2 : ∀ c,
          ((drainLoop (stepState st count f) (count + (stepFM st count f).2.2) f).1.bufs
            c).count ≤ ((stepState st count f).bufs c).count := fun c => (ih4 c).1
      have hsum1 : ∑ c ∈ Finset.range CLASS_CNT,
          ((st.bufs c).count - ((stepState st count f).bufs c).count)
          = (stepFM st count f).2.2 := by
        rw [Finset.sum_congr rfl (fun c _ => by rw [hSbufs c])]
        rw [sum_update_single (fun c => (st.bufs c).count) f
          ((stepFM st count f).1.count) hf16]
        omega
      have hsum1w : ∑ c ∈ Finset.range CLASS_CNT,
          ((st.bufs c).count - ((stepState st count f).bufs c).count) * 2 ^ c
          = (stepFM st count f).2.2 * 2 ^ f := by
        rw [Finset.sum_congr rfl (fun c _ => by rw [hSbufs c])]
        rw [sum_update_single_w (fun c => (st.bufs c).count) f
          ((stepFM st count f).1.count) hf16]
        have he : (st.bufs f).count - (stepFM st count f).1.count
            = (stepFM st count f).2.2 := by omega
        rw [he]
      refine ⟨?_, ?_, ?_, ?_, ?_, ?_, ?_, ?_⟩
      · rw [drainLoop_step_fst st count f hstop, ih1, hSfree]
      · rw [drainLoop_step_fst st count f hstop, ih2, hStot]
      · rw [drainLoop_step_cnt st count f hstop]
        exact ih3
      · intro c
        rw [drainLoop_step_fst st count f hstop]
        have h4 := ih4 c
        rw [hSbufs c] at h4
        by_cases hc : c = f
        · rw [if_pos hc] at h4
          rw [hc] at h4 ⊢
          omega
        · rw [if_neg hc] at h4
          exact h4
      · rw [drainLoop_step_cnt st count f hstop, drainLoop_step_fst st count f hstop,
          ih5,
          sum_sub_split (fun c => (st.bufs c).count)
            (fun c => ((stepState st count f).bufs c).count)
            (fun c =>
              ((drainLoop (stepState st count f) (count + (stepFM st count f).2.2)
                f).1.bufs c).count) hle1 hle2,
          hsum1]
        omega
      · have hsums : (stepFM st count f).2.2 * 2 ^ f
            + ∑ c ∈ Finset.range CLASS_CNT,
                (((stepState st count f).bufs c).count
                  - ((drainLoop (stepState st count f)
                      (count + (stepFM st count f).2.2) f).1.bufs c).count) * 2 ^ c
            = ∑ c ∈ Finset.range CLASS_CNT,
                ((st.bufs c).count
                  - ((drainLoop (stepState st count f)
                      (count + (stepFM st count f).2.2) f).1.bufs c).count) * 2 ^ c := by
          rw [sum_sub_split_w (fun c => (st.bufs c).count)
              (fun c => ((stepState st count f).bufs c).count)
              (fun c =>
                ((drainLoop (stepState st count f) (count + (stepFM st count f).2.2)
                  f).1.bufs c).count) hle1 hle2]
          rw [hsum1w]
        rw [drainLoop_step_fst st count f hstop]
        rw [ih6]
        rw [hSbs]
        rw [sub64_sub64]
        rw [hsums]
      · rw [drainLoop_step_fst st count f hstop]
        exact ih7
      · intro j hj
        rw [drainLoop_step_trace st count f hstop] at hj ⊢
        cases j with
        | zero => simp
        | succ j =>
          simp only [List.getD_cons_succ]
          have hj2 : j < (drainLoop (stepState st count f)
              (count + (stepFM st count f).2.2) f).2.2.length := by
            simpa using hj
          rw [ih8 j hj2]
          omega

/-- Claim C5: the drain decision is exactly the predicate
`free < 30% of total AND bufSize > 50% of free` (`NeedFree`, modulo the
wrapping `usize` products, excluded here by the range hypotheses), and a
drain pass (`Free`) stops as soon as `NeedFree` fails (at every class
boundary), returns at most `FREE_BATCH = 10` blocks total, never takes a
class below its per-class reserve, frees exactly the per-class count
differences, decrements `bufSize` by the bytes returned, visits the
classes from the largest (15) downward, and leaves `free` and `total`
unchanged. -/
theorem C5_drain_policy (st : ListAllocatorSt)
    (hbs : st.bufSize < W64) (h30 : st.total * 30 < W64) (h50 : st.free * 50 < W64) :
    (needFree st ↔ specNeedFree st) ∧
    (∀ st1 count1 fuel1, ¬ needFree st1 →
      drainLoop st1 count1 fuel1 = (st1, count1, [])) ∧
    (qfree st).2.1 ≤ FREE_BATCH ∧
    (∀ c, ((qfree st).1.bufs c).count ≤ (st.bufs c).count ∧
      min ((st.bufs c).count) (classReserve c) ≤ ((qfree st).1.bufs c).count) ∧
    (qfree st).2.1 = ∑ c ∈ Finset.range CLASS_CNT,
        ((st.bufs c).count - ((qfree st).1.bufs c).count) ∧
    (qfree st).1.bufSize = sub64 st.bufSize (∑ c ∈ Finset.range CLASS_CNT,
        ((st.bufs c).count - ((qfree st).1.bufs c).count) * 2 ^ c) ∧
    (qfree st).1.free = st.free ∧
    (qfree st).1.total = st.total ∧
    (∀ j, j < (qfree st).2.2.length → (qfree st).2.2.getD j 0 = 15 - j) := by
  have hD := drainLoop_spec CLASS_CNT (le_refl _) st 0 (Nat.zero_le _) hbs
  obtain ⟨d1, d2, d3, d4, d5, d6, d7, d8⟩ := hD
  refine ⟨?_, ?_, d3, d4, ?_, d6, d1, d2, ?_⟩
  · unfold needFree specNeedFree mul64
    rw [Nat.mod_eq_of_lt h30, Nat.mod_eq_of_lt h50]
  · intro st1 count1 fuel1 hnf
    cases fuel1 with
    | zero => rfl
    | succ f1 => rw [drainLoop, if_pos (Or.inl hnf)]
  · rw [show (qfree st).2.1 = 0 + ∑ c ∈ Finset.range CLASS_CNT,
        ((st.bufs c).count - ((qfree st).1.bufs c).count) from d5, Nat.zero_add]
  · intro j hj
    have hd := d8 j hj
    have h16 : CLASS_CNT = 16 := rfl
    show (drainLoop st 0 CLASS_CNT).2.2.getD j 0 = 15 - j
    rw [hd]
    omega

/-- Witness for C5: on the concrete state `c5State` the drain predicate
agrees with the spec formula, the pass frees at most 10 blocks, and
tier-2 class 14 is not taken below its reserve. -/
theorem C5_drain_policy_witness :
    (needFree c5State ↔ specNeedFree c5State) ∧
    (qfree c5State).2.1 ≤ FREE_BATCH ∧
    min ((c5State.bufs 14).count) (classReserve 14)
      ≤ ((qfree c5State).1.bufs 14).count := by
  have h := C5_drain_policy c5State (by decide) (by decide) (by decide)
  exact ⟨h.1, h.2.2.1, (h.2.2.2.1 14).2⟩
